import Mathlib

/-
Shallow embedding of the protocol/state layer of `src/usbrelay.cpp`
(the `Usbrelay` class of the USB-RELAY repository).

Bytes are modelled as natural numbers, with the 8-bit truncations that
the C++ `char` / `uint8_t` conversions perform written explicitly as
`% 256`; `int`-valued quantities (statuses, the `command` argument,
`relaynumber`) are modelled as `Int`.  The serial transport
(`serialib::writeChar` / `serialib::readChar`) is an external
collaborator; it is modelled as an oracle giving the status of the
i-th write and the byte and status delivered by the i-th read.

The receive and transmit history buffers are `char` arrays whose
declared size lives in `usbrelay.hpp`, which is not part of the
published sources; their size is therefore kept as a parameter `cap`
throughout.  The element-shifting insert loops are modelled twice:
`shiftInsert` gives their in-bounds effect on the buffer contents, and
`shiftStoreIndices` records the exact sequence of indices the loops
store to (which is needed to analyse their bounds behaviour).
-/

namespace UsbRelay

/-- Bytes are naturals; all 8-bit truncations are explicit `% 256`. -/
abbrev Byte := Nat

/-- Model of the serial transport (`serialib`): the status returned by
the i-th `writeChar` call and the byte and status produced by the i-th
`readChar` call of the session (a status of 1 means success). -/
structure Oracle where
  writeStatus : Nat → Int
  readByte : Nat → Byte
  readStatus : Nat → Int

/-- State of a `Usbrelay` object: `relaynumber`, the receive and
transmit history buffers (most recent byte first), plus instrumentation
recording the interaction with the transport: `wcount`/`rcount` count
the `writeChar`/`readChar` calls made so far, and `sent` logs, most
recent first, each byte handed to `writeChar` together with the
milliseconds of settle delay requested after it. -/
structure Usbrelay where
  relaynumber : Int
  buffertx : List Byte
  bufferrx : List Byte
  wcount : Nat
  rcount : Nat
  sent : List (Byte × Nat)

/-- In-bounds effect on a buffer of declared size `cap` of the insert
loop shared by `Usbrelay::bufferrxAdd` and `Usbrelay::buffertxAdd`
(usbrelay.cpp:62-78): every position `k+1` receives the old position
`k`, then position 0 receives the new element, so positions `1..cap-1`
hold the old positions `0..cap-2` and the old last element is shifted
out.  The `char` parameter truncates the element to 8 bits. -/
def shiftInsert (cap : Nat) (elt : Nat) (buf : List Byte) : List Byte :=
  elt % 256 :: buf.take (cap - 1)

/-- Sequence of indices stored to by the insert loop of
`Usbrelay::bufferrxAdd` / `Usbrelay::buffertxAdd` on a buffer of
declared size `length` (usbrelay.cpp:64-67 and 74-77): the loop
`for (int k = length - 1; k >= 0; k--) buffer[k + 1] = buffer[k];`
stores to index `k+1` for `k = length-1, ..., 0`, and the final
`buffer[0] = elt;` stores to index 0. -/
def shiftStoreIndices (length : Nat) : List Nat :=
  (List.range length).reverse.map (fun k => k + 1) ++ [0]

/-- Model of `Usbrelay::bufferrxAdd` (usbrelay.cpp:62-68). -/
def bufferrxAdd (cap : Nat) (u : Usbrelay) (elt : Nat) : Usbrelay :=
  { u with bufferrx := shiftInsert cap elt u.bufferrx }

/-- Model of `Usbrelay::buffertxAdd` (usbrelay.cpp:72-78). -/
def buffertxAdd (cap : Nat) (u : Usbrelay) (elt : Nat) : Usbrelay :=
  { u with buffertx := shiftInsert cap elt u.buffertx }

/-- Model of `Usbrelay::send` (usbrelay.cpp:84-89): front-insert the
byte into the transmit history, hand `buffertx[0]` to `writeChar` (one
single attempt), sleep `ms` milliseconds, and return the write status.
The byte written and the delay are recorded in the `sent` log. -/
def send (cap : Nat) (o : Oracle) (u : Usbrelay) (data : Nat) (ms : Nat) :
    Usbrelay × Int :=
  let u1 := buffertxAdd cap u data
  let status := o.writeStatus u1.wcount
  ({ u1 with
      wcount := u1.wcount + 1
      sent := (u1.buffertx.headD 0, ms) :: u1.sent }, status)

/-- Loop of `Usbrelay::recieve` (usbrelay.cpp:96-103), with the value
of the local variable `status` threaded as an `Option Int` (`none`
while it is still uninitialized): each iteration reads one byte,
inserts it into the receive history, and returns the status at once if
the read did not succeed. -/
def recieveAux (cap : Nat) (o : Oracle) :
    Nat → Usbrelay → Option Int → Usbrelay × Option Int
  | 0, u, status => (u, status)
  | n + 1, u, _ =>
    let b := o.readByte u.rcount
    let st := o.readStatus u.rcount
    let u1 := { bufferrxAdd cap u b with rcount := u.rcount + 1 }
    if st ≠ 1 then (u1, some st) else recieveAux cap o n u1 (some st)

/-- Model of `Usbrelay::recieve` (usbrelay.cpp:94-105).  The returned
status is `none` exactly when the loop body never ran (`nbyte = 0`), in
which case the C++ function returns its uninitialized local `status`. -/
def recieve (cap : Nat) (o : Oracle) (u : Usbrelay) (nbyte : Nat) :
    Usbrelay × Option Int :=
  recieveAux cap o nbyte u none

/-- Model of `Usbrelay::initBoard` (usbrelay.cpp:136-167): send the
probe `0x50` with a 200 ms delay, read one byte, then dispatch on the
byte read (as a `uint8_t`): `0xAD`, `0xAB`, `0xAC` set `relaynumber` to
2, 4, 8 respectively and send the follow-up bytes `0x51` and `0xFF`,
each with a 10 ms delay; any other byte falls through the `switch` and
the function returns 1 directly. -/
def initBoard (cap : Nat) (o : Oracle) (u : Usbrelay) : Usbrelay × Int :=
  let r1 := send cap o u 0x50 200
  if r1.2 ≠ 1 then (r1.1, -1) else
  let r2 := recieve cap o r1.1 1
  if r2.2 ≠ some 1 then (r2.1, -1) else
  let u2 := r2.1
  let data := u2.bufferrx.headD 0 % 256
  if data = 0xad then
    let u3 := { u2 with relaynumber := 2 }
    let r4 := send cap o u3 0x51 10
    if r4.2 ≠ 1 then (r4.1, -1) else
    let r5 := send cap o r4.1 0xff 10
    if r5.2 ≠ 1 then (r5.1, -1) else (r5.1, 1)
  else if data = 0xab then
    let u3 := { u2 with relaynumber := 4 }
    let r4 := send cap o u3 0x51 10
    if r4.2 ≠ 1 then (r4.1, -1) else
    let r5 := send cap o r4.1 0xff 10
    if r5.2 ≠ 1 then (r5.1, -1) else (r5.1, 1)
  else if data = 0xac then
    let u3 := { u2 with relaynumber := 8 }
    let r4 := send cap o u3 0x51 10
    if r4.2 ≠ 1 then (r4.1, -1) else
    let r5 := send cap o r4.1 0xff 10
    if r5.2 ≠ 1 then (r5.1, -1) else (r5.1, 1)
  else (u2, 1)

/-- Model of `Usbrelay::setState(int)` (usbrelay.cpp:172-187).  On a
two's-complement `int`, `command & 3` equals `command` mod 4, and the
conversion of `~command` to `uint8_t` equals `(-command - 1)` mod 256
(Lean's `Int` `%` is the nonnegative remainder). -/
def setStateMask (cap : Nat) (o : Oracle) (u : Usbrelay) (command : Int) :
    Usbrelay × Int :=
  if u.relaynumber = 2 then
    let com := (command % 4).toNat
    let r := send cap o u com 50
    if r.2 ≠ 1 then (r.1, -1) else (r.1, 1)
  else
    let com := ((-command - 1) % 256).toNat
    let r := send cap o u com 50
    if r.2 ≠ 1 then (r.1, -1) else (r.1, 1)

/-- One bit-folding loop of `Usbrelay::setState(int[])`
(usbrelay.cpp:197-204 and 210-217): `com` is a `uint8_t`, so the left
shift is taken mod 256; the freshly shifted-in low bit is set exactly
when the array entry equals `cond` (`cond = 1` in the 2-relay branch,
`cond = 0` in the default branch).  `foldArr cond arr n com` runs the
loop body for `k = n-1` down to `k = 0`. -/
def foldArr (cond : Int) (arr : Int → Int) : Nat → Nat → Nat
  | 0, com => com
  | n + 1, com =>
      foldArr cond arr n
        (if arr (n : Int) = cond then com * 2 % 256 + 1 else com * 2 % 256)

/-- Model of `Usbrelay::setState(int[])` (usbrelay.cpp:192-223).  The
seed is `commandarray[relaynumber - 1]` converted to `uint8_t` in the
2-relay branch, and `!commandarray[relaynumber - 1]` (1 if the entry is
0, else 0) in the default branch; the loop then runs for
`k = relaynumber - 2` down to 0, i.e. `relaynumber - 1` iterations. -/
def setStateArr (cap : Nat) (o : Oracle) (u : Usbrelay) (arr : Int → Int) :
    Usbrelay × Int :=
  if u.relaynumber = 2 then
    let com0 := (arr (u.relaynumber - 1) % 256).toNat
    let com := foldArr 1 arr (u.relaynumber - 1).toNat com0
    let r := send cap o u com 50
    if r.2 ≠ 1 then (r.1, -1) else (r.1, 1)
  else
    let com0 : Nat := if arr (u.relaynumber - 1) = 0 then 1 else 0
    let com := foldArr 0 arr (u.relaynumber - 1).toNat com0
    let r := send cap o u com 50
    if r.2 ≠ 1 then (r.1, -1) else (r.1, 1)

/-- Model of `Usbrelay::getState` (usbrelay.cpp:227-233), giving the
8-bit pattern of the returned `char`: `buffertx[0]` itself for the
2-relay variant and its bitwise inverse (`255 - b` for `b < 256`)
otherwise. -/
def getState (u : Usbrelay) : Nat :=
  if u.relaynumber = 2 then u.buffertx.headD 0 % 256
  else 255 - u.buffertx.headD 0 % 256

/-- Model of `Usbrelay::getrx` (usbrelay.cpp:237-239). -/
def getrx (u : Usbrelay) : Nat :=
  u.bufferrx.headD 0

/-- Spec-side definition, modelled from the spec (§8): of the bitmask
`bitmaskEquivalentOf(A)`, the sum of `2^k` over the indices `k < n`
whose array entry equals `cond`; `cond = 1` gives the bitmask whose bit
`k` equals `A[k]`. -/
def condSum (cond : Int) (arr : Int → Int) (n : Nat) : Nat :=
  ∑ k ∈ Finset.range n, if arr (k : Int) = cond then 2 ^ k else 0

/-- Modelled from the spec: `bitmaskEquivalentOf(A)` of §8, the bitmask
whose bit `k` equals `A[k]`. -/
def bitmaskOf (arr : Int → Int) (n : Nat) : Nat :=
  condSum 1 arr n

/-- Bytes delivered by the transport reads `start, ..., start + k - 1`,
most recent first, truncated to 8 bits as the receive history stores
them. -/
def readBlock (o : Oracle) (start k : Nat) : List Nat :=
  (List.range k).reverse.map (fun i => o.readByte (start + i) % 256)

/-- Transport oracle used by witnesses: every write succeeds and every
read delivers the byte `0xAD` with success. -/
def oracleAD : Oracle :=
  { writeStatus := fun _ => 1, readByte := fun _ => 0xad, readStatus := fun _ => 1 }

/-- Transport oracle whose writes all fail with status -1. -/
def oracleWFail : Oracle :=
  { writeStatus := fun _ => -1, readByte := fun _ => 0, readStatus := fun _ => 1 }

/-- Transport oracle whose second read (index 1) fails with status -1;
read `i` delivers byte `10 + i`. -/
def oracleR1Fail : Oracle :=
  { writeStatus := fun _ => 1, readByte := fun i => 10 + i
    readStatus := fun i => if i = 1 then -1 else 1 }

/-- Fresh controller state with a constructor-supplied relay-count guess
of 5 and empty histories. -/
def relay5 : Usbrelay :=
  { relaynumber := 5, buffertx := [], bufferrx := [], wcount := 0, rcount := 0, sent := [] }

/-- Fresh controller state with relay count 2. -/
def relay2 : Usbrelay :=
  { relaynumber := 2, buffertx := [], bufferrx := [], wcount := 0, rcount := 0, sent := [] }

/-- Fresh controller state with relay count 4. -/
def relay4 : Usbrelay :=
  { relaynumber := 4, buffertx := [], bufferrx := [], wcount := 0, rcount := 0, sent := [] }

/-- Fresh controller state with relay count 8. -/
def relay8 : Usbrelay :=
  { relaynumber := 8, buffertx := [], bufferrx := [], wcount := 0, rcount := 0, sent := [] }

theorem send_fst (cap : Nat) (o : Oracle) (u : Usbrelay) (data ms : Nat) :
    (send cap o u data ms).1 =
      { u with
          buffertx := data % 256 :: u.buffertx.take (cap - 1)
          wcount := u.wcount + 1
          sent := (data % 256, ms) :: u.sent } := rfl

theorem send_snd (cap : Nat) (o : Oracle) (u : Usbrelay) (data ms : Nat) :
    (send cap o u data ms).2 = o.writeStatus u.wcount := rfl

theorem recieve_one (cap : Nat) (o : Oracle) (u : Usbrelay) :
    recieve cap o u 1 =
      ({ u with
          bufferrx := o.readByte u.rcount % 256 :: u.bufferrx.take (cap - 1)
          rcount := u.rcount + 1 },
       some (o.readStatus u.rcount)) := by
  unfold recieve recieveAux
  dsimp only
  split <;> rfl

/-- C10: refuted by the code: `recieve(0)` performs no read attempt and
falls through to `return status` with the local `status` still
uninitialized (modelled as `none`), so the returned status is not a
defined value; the state is returned unchanged. -/
theorem recieve_zero_status_none (cap : Nat) (o : Oracle) (u : Usbrelay) :
    recieve cap o u 0 = (u, none) := rfl

/-- C6: when the transport write fails, `send` returns that failure
status to the caller, makes exactly one write attempt (the write
counter advances by one), and the transmit history differs from its
pre-call contents only by the single front insertion of the attempted
byte; the receive history and relay count are untouched. -/
theorem send_failure_propagation (cap : Nat) (o : Oracle) (u : Usbrelay)
    (data ms : Nat) (hfail : o.writeStatus u.wcount ≠ 1) :
    (send cap o u data ms).2 = o.writeStatus u.wcount ∧
    (send cap o u data ms).2 ≠ 1 ∧
    (send cap o u data ms).1.buffertx = data % 256 :: u.buffertx.take (cap - 1) ∧
    (send cap o u data ms).1.wcount = u.wcount + 1 ∧
    (send cap o u data ms).1.bufferrx = u.bufferrx ∧
    (send cap o u data ms).1.relaynumber = u.relaynumber :=
  ⟨rfl, hfail, rfl, rfl, rfl, rfl⟩

theorem send_failure_propagation_witness :
    oracleWFail.writeStatus relay5.wcount ≠ 1 ∧
    (send 4 oracleWFail relay5 7 50).2 = -1 ∧
    (send 4 oracleWFail relay5 7 50).2 ≠ 1 ∧
    (send 4 oracleWFail relay5 7 50).1.buffertx = [7] ∧
    (send 4 oracleWFail relay5 7 50).1.wcount = 1 ∧
    (send 4 oracleWFail relay5 7 50).1.bufferrx = [] :=
  ⟨by decide,
   (send_failure_propagation 4 oracleWFail relay5 7 50 (by decide)).1,
   (send_failure_propagation 4 oracleWFail relay5 7 50 (by decide)).2.1,
   (send_failure_propagation 4 oracleWFail relay5 7 50 (by decide)).2.2.1,
   (send_failure_propagation 4 oracleWFail relay5 7 50 (by decide)).2.2.2.1,
   (send_failure_propagation 4 oracleWFail relay5 7 50 (by decide)).2.2.2.2.1⟩

/-- C4: `setState(int)` sends exactly `command & 3` (the input masked to
its low 2 bits) when the relay count is 2 and exactly the 8-bit bitwise
inversion of `command` when the relay count is 4 or 8, in both cases
with a 50 ms settle delay. -/
theorem setStateMask_wire_byte (cap : Nat) (o : Oracle) (u : Usbrelay)
    (command : Int) :
    (u.relaynumber = 2 →
      (setStateMask cap o u command).1.sent.headD (0, 0) =
        ((command % 4).toNat, 50)) ∧
    (u.relaynumber = 4 ∨ u.relaynumber = 8 →
      (setStateMask cap o u command).1.sent.headD (0, 0) =
        (((-command - 1) % 256).toNat, 50)) := by
  constructor
  · intro h2
    have hlt : (command % 4).toNat < 256 := by omega
    simp only [setStateMask, h2, if_pos, send_fst]
    split <;> simp [Nat.mod_eq_of_lt hlt]
  · intro h48
    have hne : u.relaynumber ≠ 2 := by rcases h48 with h | h <;> omega
    have hlt : ((-command - 1) % 256).toNat < 256 := by omega
    simp only [setStateMask, if_neg hne, send_fst]
    split <;> simp [Nat.mod_eq_of_lt hlt]

theorem setStateMask_wire_byte_witness :
    (setStateMask 4 oracleAD relay2 6).1.sent.headD (0, 0) = (2, 50) ∧
    (setStateMask 4 oracleAD relay8 1).1.sent.headD (0, 0) = (254, 50) :=
  ⟨(setStateMask_wire_byte 4 oracleAD relay2 6).1 rfl,
   (setStateMask_wire_byte 4 oracleAD relay8 1).2 (Or.inr rfl)⟩

/-- C9: the `switch` of `setState(int)` sends the masked byte only for
relay count exactly 2; every other relay count, including out-of-family
values such as 0, 1 or 3 left by a failed or unrecognized handshake,
takes the `default` branch and sends the bitwise-inverted byte. -/
theorem setStateMask_branch_dispatch (cap : Nat) (o : Oracle) (u : Usbrelay)
    (command : Int) :
    (u.relaynumber ≠ 2 →
      (setStateMask cap o u command).1.sent.headD (0, 0) =
        (((-command - 1) % 256).toNat, 50)) ∧
    (u.relaynumber = 2 →
      (setStateMask cap o u command).1.sent.headD (0, 0) =
        ((command % 4).toNat, 50)) := by
  constructor
  · intro hne
    have hlt : ((-command - 1) % 256).toNat < 256 := by omega
    simp only [setStateMask, if_neg hne, send_fst]
    split <;> simp [Nat.mod_eq_of_lt hlt]
  · intro h2
    have hlt : (command % 4).toNat < 256 := by omega
    simp only [setStateMask, h2, if_pos, send_fst]
    split <;> simp [Nat.mod_eq_of_lt hlt]

theorem setStateMask_branch_dispatch_witness :
    relay5.relaynumber ≠ 2 ∧
    (setStateMask 4 oracleAD relay5 0).1.sent.headD (0, 0) = (255, 50) :=
  ⟨by decide, (setStateMask_branch_dispatch 4 oracleAD relay5 0).1 (by decide)⟩

/-- C8: refuted by the code: on a buffer of declared size `cap ≥ 1` the
very first store of the element-shifting loop (`k = cap - 1`, storing to
`buffer[k + 1]`) is at index `cap`, one past the last valid index
`cap - 1`, so an access at index `capacity` does occur. -/
theorem shift_loop_oob_store (cap : Nat) (hcap : 1 ≤ cap) :
    (shiftStoreIndices cap).headD 0 = cap ∧ cap ∈ shiftStoreIndices cap := by
  obtain ⟨c, rfl⟩ : ∃ c, cap = c + 1 := ⟨cap - 1, by omega⟩
  constructor
  · simp [shiftStoreIndices, List.range_succ]
  · simp only [shiftStoreIndices, List.mem_append, List.mem_map,
      List.mem_reverse, List.mem_range]
    exact Or.inl ⟨c, by omega, rfl⟩

theorem shift_loop_oob_store_witness :
    (shiftStoreIndices 8).headD 0 = 8 ∧ 8 ∈ shiftStoreIndices 8 :=
  shift_loop_oob_store 8 (by decide)

/-- C2: handshake dispatch of `initBoard`: when the probe write and the
single response read succeed (and follow-up writes succeed where they
are attempted), a response byte `0xAD`/`0xAB`/`0xAC` sets the relay
count to 2/4/8 and sends the follow-up bytes `0x51` then `0xFF`, each
with a 10 ms delay; any other response byte leaves the relay count at
its pre-handshake value, sends no follow-up byte, and the handshake
still returns success (1). -/
theorem initBoard_dispatch (cap : Nat) (o : Oracle) (u : Usbrelay) (b : Nat)
    (hb : o.readByte u.rcount = b) (hblt : b < 256)
    (hr : o.readStatus u.rcount = 1)
    (hw0 : o.writeStatus u.wcount = 1)
    (hw1 : o.writeStatus (u.wcount + 1) = 1)
    (hw2 : o.writeStatus (u.wcount + 1 + 1) = 1) :
    (initBoard cap o u).2 = 1 ∧
    (initBoard cap o u).1.relaynumber =
      (if b = 0xad then 2 else if b = 0xab then 4 else if b = 0xac then 8
       else u.relaynumber) ∧
    (initBoard cap o u).1.sent =
      (if b = 0xad ∨ b = 0xab ∨ b = 0xac then
        (0xff, 10) :: (0x51, 10) :: (0x50, 200) :: u.sent
       else (0x50, 200) :: u.sent) := by
  have hbm : b % 256 = b := Nat.mod_eq_of_lt hblt
  by_cases had : b = 0xad
  · subst had
    simp [initBoard, send_snd, send_fst, recieve_one, hw0, hw1, hw2, hr, hb, hbm]
  · by_cases hab : b = 0xab
    · subst hab
      simp [initBoard, send_snd, send_fst, recieve_one, hw0, hw1, hw2, hr, hb, hbm]
    · by_cases hac : b = 0xac
      · subst hac
        simp [initBoard, send_snd, send_fst, recieve_one, hw0, hw1, hw2, hr, hb, hbm]
      · simp [initBoard, send_snd, send_fst, recieve_one, hw0, hw1, hw2, hr, hb,
          hbm, had, hab, hac]

theorem initBoard_dispatch_witness :
    oracleAD.readByte relay5.rcount = 0xad ∧
    (initBoard 4 oracleAD relay5).2 = 1 ∧
    (initBoard 4 oracleAD relay5).1.relaynumber = 2 ∧
    (initBoard 4 oracleAD relay5).1.sent =
      [(0xff, 10), (0x51, 10), (0x50, 200)] :=
  ⟨rfl,
   (initBoard_dispatch 4 oracleAD relay5 0xad rfl (by decide) rfl rfl rfl rfl).1,
   (initBoard_dispatch 4 oracleAD relay5 0xad rfl (by decide) rfl rfl rfl rfl).2.1,
   (initBoard_dispatch 4 oracleAD relay5 0xad rfl (by decide) rfl rfl rfl rfl).2.2⟩

/-- C3: round-trip law: for relay counts 2, 4 and 8 and any bitmask
whose set bits lie in the low N bits, a successful `setState(m)` writes
the encoded byte (low-2-bit mask for N = 2, 8-bit inversion for
N = 4, 8) into the transmit history and `getState` decodes it back
(identity for N = 2, inversion for N = 4, 8), so `getState` returns
exactly `m`. -/
theorem setState_getState_roundtrip (cap : Nat) (o : Oracle) (u : Usbrelay)
    (m : Nat)
    (hN : (u.relaynumber = 2 ∧ m < 4) ∨ (u.relaynumber = 4 ∧ m < 16) ∨
      (u.relaynumber = 8 ∧ m < 256))
    (hw : o.writeStatus u.wcount = 1) :
    (setStateMask cap o u (m : Int)).2 = 1 ∧
    getState (setStateMask cap o u (m : Int)).1 = m := by
  rcases hN with ⟨hrel, hm⟩ | ⟨hrel, hm⟩ | ⟨hrel, hm⟩
  · have hcom : ((m : Int) % 4).toNat = m := by omega
    have hmod : m % 256 = m := Nat.mod_eq_of_lt (by omega)
    simp [setStateMask, hrel, send_snd, send_fst, hw, getState, hcom, hmod]
  · have hne : u.relaynumber ≠ 2 := by omega
    have hcom : ((-(m : Int) - 1) % 256).toNat = 255 - m := by omega
    have hmod : (255 - m) % 256 = 255 - m := Nat.mod_eq_of_lt (by omega)
    constructor
    · simp [setStateMask, hne, send_snd, hw]
    · simp only [setStateMask, if_neg hne, send_snd, send_fst, hw, getState, hcom,
        hmod]
      simp [hne]
      omega
  · have hne : u.relaynumber ≠ 2 := by omega
    have hcom : ((-(m : Int) - 1) % 256).toNat = 255 - m := by omega
    have hmod : (255 - m) % 256 = 255 - m := Nat.mod_eq_of_lt (by omega)
    constructor
    · simp [setStateMask, hne, send_snd, hw]
    · simp only [setStateMask, if_neg hne, send_snd, send_fst, hw, getState, hcom,
        hmod]
      simp [hne]
      omega

theorem setState_getState_roundtrip_witness :
    (setStateMask 4 oracleAD relay8 1).2 = 1 ∧
    getState (setStateMask 4 oracleAD relay8 1).1 = 1 :=
  setState_getState_roundtrip 4 oracleAD relay8 1
    (Or.inr (Or.inr ⟨rfl, by decide⟩)) rfl

theorem readBlock_succ (o : Oracle) (start k : Nat) :
    readBlock o start (k + 1) =
      readBlock o (start + 1) k ++ [o.readByte start % 256] := by
  have hfun : ((fun i => o.readByte (start + i) % 256) ∘ Nat.succ) =
      fun i => o.readByte (start + 1 + i) % 256 := by
    funext i
    simp only [Function.comp_apply]
    have h : start + Nat.succ i = start + 1 + i := by omega
    rw [h]
  unfold readBlock
  rw [List.range_succ_eq_map, List.reverse_cons, List.map_append,
    List.map_reverse, List.map_map, hfun, ← List.map_reverse]
  simp

theorem recieveAux_succ_eq (cap : Nat) (o : Oracle) (n : Nat) (u : Usbrelay)
    (st : Option Int) :
    recieveAux cap o (n + 1) u st =
      (if o.readStatus u.rcount ≠ 1 then
        ({ bufferrxAdd cap u (o.readByte u.rcount) with rcount := u.rcount + 1 },
         some (o.readStatus u.rcount))
       else
        recieveAux cap o n
          { bufferrxAdd cap u (o.readByte u.rcount) with rcount := u.rcount + 1 }
          (some (o.readStatus u.rcount))) := rfl

theorem bufferrx_step_eq (cap : Nat) (o : Oracle) (u : Usbrelay) (k : Nat)
    (hk : k + 1 ≤ cap) :
    readBlock o (u.rcount + 1) k ++
      (o.readByte u.rcount % 256 :: u.bufferrx.take (cap - 1)).take (cap - k) =
    readBlock o u.rcount (k + 1) ++ u.bufferrx.take (cap - (k + 1)) := by
  obtain ⟨t, ht⟩ : ∃ t, cap - k = t + 1 := ⟨cap - k - 1, by omega⟩
  rw [readBlock_succ o u.rcount k, ht, List.take_succ_cons, List.take_take]
  have hmin : min t (cap - 1) = cap - (k + 1) := by omega
  rw [hmin, List.append_assoc, List.singleton_append]

theorem recieveAux_first_fail (cap : Nat) (o : Oracle) :
    ∀ (k n : Nat) (u : Usbrelay) (st : Option Int),
      1 ≤ k → k ≤ n → k ≤ cap →
      (∀ i < k - 1, o.readStatus (u.rcount + i) = 1) →
      o.readStatus (u.rcount + (k - 1)) ≠ 1 →
      recieveAux cap o n u st =
        ({ u with
            bufferrx := readBlock o u.rcount k ++ u.bufferrx.take (cap - k)
            rcount := u.rcount + k },
         some (o.readStatus (u.rcount + (k - 1)))) := by
  intro k
  induction k with
  | zero => intro n u st hk; omega
  | succ k ih =>
    intro n u st _ hkn hkcap hsucc hfail
    obtain ⟨n', rfl⟩ : ∃ n', n = n' + 1 := ⟨n - 1, by omega⟩
    rw [recieveAux_succ_eq]
    rcases Nat.eq_zero_or_pos k with hk0 | hkpos
    · subst hk0
      have hf : o.readStatus u.rcount ≠ 1 := by simpa using hfail
      rw [if_pos hf]
      simp [bufferrxAdd, shiftInsert, readBlock, List.range_succ]
    · have h0 : o.readStatus u.rcount = 1 := by simpa using hsucc 0 (by omega)
      rw [if_neg (by simp [h0])]
      have hrec := ih n'
        ({ bufferrxAdd cap u (o.readByte u.rcount) with rcount := u.rcount + 1 })
        (some (o.readStatus u.rcount)) hkpos (by omega) (by omega)
        (fun i hi => by
          show o.readStatus (u.rcount + 1 + i) = 1
          have h := hsucc (i + 1) (by omega)
          have heq : u.rcount + (i + 1) = u.rcount + 1 + i := by omega
          rw [heq] at h
          exact h)
        (by
          show o.readStatus (u.rcount + 1 + (k - 1)) ≠ 1
          have heq : u.rcount + 1 + (k - 1) = u.rcount + (k + 1 - 1) := by omega
          rw [heq]
          exact hfail)
      rw [hrec]
      have heq : u.rcount + 1 + (k - 1) = u.rcount + (k + 1 - 1) := by omega
      have hrc : u.rcount + 1 + k = u.rcount + (k + 1) := by omega
      have hbuf := bufferrx_step_eq cap o u k hkcap
      simp [bufferrxAdd, shiftInsert, heq, hrc, hbuf]

theorem recieveAux_all_succeed (cap : Nat) (o : Oracle) :
    ∀ (n : Nat) (u : Usbrelay) (st : Option Int),
      1 ≤ n → n ≤ cap →
      (∀ i < n, o.readStatus (u.rcount + i) = 1) →
      recieveAux cap o n u st =
        ({ u with
            bufferrx := readBlock o u.rcount n ++ u.bufferrx.take (cap - n)
            rcount := u.rcount + n },
         some 1) := by
  intro n
  induction n with
  | zero => intro u st hn; omega
  | succ n ih =>
    intro u st _ hncap hsucc
    have h0 : o.readStatus u.rcount = 1 := by simpa using hsucc 0 (by omega)
    rw [recieveAux_succ_eq, if_neg (by simp [h0])]
    rcases Nat.eq_zero_or_pos n with hn0 | hnpos
    · subst hn0
      simp [recieveAux, bufferrxAdd, shiftInsert, readBlock, List.range_succ, h0]
    · have hrec := ih
        ({ bufferrxAdd cap u (o.readByte u.rcount) with rcount := u.rcount + 1 })
        (some (o.readStatus u.rcount)) hnpos (by omega)
        (fun i hi => by
          show o.readStatus (u.rcount + 1 + i) = 1
          have h := hsucc (i + 1) (by omega)
          have heq : u.rcount + (i + 1) = u.rcount + 1 + i := by omega
          rw [heq] at h
          exact h)
      rw [hrec]
      have hrc : u.rcount + 1 + n = u.rcount + (n + 1) := by omega
      have hbuf := bufferrx_step_eq cap o u n hncap
      simp [bufferrxAdd, shiftInsert, hrc, hbuf]

/-- C5: reading with `recieve(n)`, if the k-th single-byte read
(1 ≤ k ≤ n) is the first to fail, exactly `k` entries are freshly
front-inserted into the receive history — the k-th, at the front, being
the byte from the failed read attempt — that read's failure status is
returned, and no read attempt is made for bytes `k+1..n` (the read
counter advances by exactly `k`); if all `n` reads succeed, exactly `n`
entries are inserted and success is returned.  (Stated for `k`, `n` up
to the history capacity, so the inserted entries are all retained.) -/
theorem recieve_partial_and_total (cap : Nat) (o : Oracle) (u : Usbrelay)
    (n : Nat) :
    (∀ k, 1 ≤ k → k ≤ n → k ≤ cap →
      (∀ i < k - 1, o.readStatus (u.rcount + i) = 1) →
      o.readStatus (u.rcount + (k - 1)) ≠ 1 →
      recieve cap o u n =
        ({ u with
            bufferrx := readBlock o u.rcount k ++ u.bufferrx.take (cap - k)
            rcount := u.rcount + k },
         some (o.readStatus (u.rcount + (k - 1))))) ∧
    (1 ≤ n → n ≤ cap → (∀ i < n, o.readStatus (u.rcount + i) = 1) →
      recieve cap o u n =
        ({ u with
            bufferrx := readBlock o u.rcount n ++ u.bufferrx.take (cap - n)
            rcount := u.rcount + n },
         some 1)) :=
  ⟨fun k hk1 hkn hkcap hsucc hfail =>
    recieveAux_first_fail cap o k n u none hk1 hkn hkcap hsucc hfail,
   fun hn1 hncap hsucc =>
    recieveAux_all_succeed cap o n u none hn1 hncap hsucc⟩

theorem recieve_partial_and_total_witness :
    oracleR1Fail.readStatus 1 = -1 ∧
    recieve 4 oracleR1Fail relay5 3 =
      ({ relay5 with bufferrx := [11, 10], rcount := 2 }, some (-1)) ∧
    recieve 4 oracleAD relay5 2 =
      ({ relay5 with bufferrx := [0xad, 0xad], rcount := 2 }, some 1) := by
  refine ⟨rfl, ?_, ?_⟩
  · have h := (recieve_partial_and_total 4 oracleR1Fail relay5 3).1 2
      (by decide) (by decide) (by decide)
      (by intro i hi; interval_cases i; rfl) (by decide)
    exact h
  · have h := (recieve_partial_and_total 4 oracleAD relay5 2).2
      (by decide) (by decide) (by intro i hi; interval_cases i <;> rfl)
    exact h

theorem take_append_take_absorb (l1 l2 : List Nat) (n : Nat) :
    (l1 ++ l2.take n).take n = (l1 ++ l2).take n := by
  rw [List.take_append_eq_append_take, List.take_append_eq_append_take,
    List.take_take]
  have hmin : min (n - l1.length) n = n - l1.length :=
    Nat.min_eq_left (Nat.sub_le n l1.length)
  rw [hmin]

theorem shiftInsert_as_take (cap : Nat) (hcap : 1 ≤ cap) (x : Nat)
    (buf : List Nat) :
    shiftInsert cap x buf = (x % 256 :: buf).take cap := by
  obtain ⟨c, rfl⟩ : ∃ c, cap = c + 1 := ⟨cap - 1, by omega⟩
  simp [shiftInsert, List.take_succ_cons]

theorem foldl_shiftInsert (cap : Nat) (hcap : 1 ≤ cap) :
    ∀ (xs : List Nat) (buf : List Nat), buf.length ≤ cap →
      xs.foldl (fun b x => shiftInsert cap x b) buf =
        (xs.reverse.map (fun x => x % 256) ++ buf).take cap := by
  intro xs
  induction xs with
  | nil =>
    intro buf hlen
    simp [List.take_of_length_le hlen]
  | cons x xs ih =>
    intro buf hlen
    have hstep : (shiftInsert cap x buf).length ≤ cap := by
      simp [shiftInsert]
      omega
    rw [List.foldl_cons, ih _ hstep, shiftInsert_as_take cap hcap,
      take_append_take_absorb]
    have hassoc : xs.reverse.map (fun x => x % 256) ++ (x % 256 :: buf) =
        ((x :: xs).reverse.map (fun x => x % 256)) ++ buf := by
      simp
    rw [hassoc]

/-- C7: buffer discipline: starting from any buffer state of at most
`cap` entries, after a sequence of more than `cap` front inserts
(`cap` = the declared buffer size, each insert being the in-bounds
effect of `bufferrxAdd`/`buffertxAdd`), the buffer contains exactly the
most recent `cap` inserted bytes, most recent first (index 0 the
newest), the older inserts and the whole original contents having been
evicted. -/
theorem buffer_mru_discipline (cap : Nat) (buf : List Nat) (xs : List Nat)
    (hcap : 1 ≤ cap) (hbuf : buf.length ≤ cap) (hlen : cap < xs.length) :
    xs.foldl (fun b x => shiftInsert cap x b) buf =
      (xs.reverse.map (fun x => x % 256)).take cap := by
  rw [foldl_shiftInsert cap hcap xs buf hbuf,
    List.take_append_eq_append_take]
  have hz : cap - (xs.reverse.map (fun x => x % 256)).length = 0 := by
    simp
    omega
  rw [hz]
  simp

theorem buffer_mru_discipline_witness :
    [1, 2, 300, 4].foldl (fun b x => shiftInsert 2 x b) [9, 9] = [4, 44] :=
  buffer_mru_discipline 2 [9, 9] [1, 2, 300, 4] (by decide) (by decide)
    (by decide)

theorem setStateMask_fst (cap : Nat) (o : Oracle) (u : Usbrelay)
    (command : Int) :
    (setStateMask cap o u command).1 =
      (send cap o u
        (if u.relaynumber = 2 then (command % 4).toNat
         else ((-command - 1) % 256).toNat) 50).1 := by
  unfold setStateMask
  by_cases h : u.relaynumber = 2
  · rw [if_pos h, if_pos h]
    dsimp only
    split <;> rfl
  · rw [if_neg h, if_neg h]
    dsimp only
    split <;> rfl

theorem setStateArr_fst (cap : Nat) (o : Oracle) (u : Usbrelay)
    (arr : Int → Int) :
    (setStateArr cap o u arr).1 =
      (send cap o u
        (if u.relaynumber = 2 then
          foldArr 1 arr (u.relaynumber - 1).toNat
            (arr (u.relaynumber - 1) % 256).toNat
         else
          foldArr 0 arr (u.relaynumber - 1).toNat
            (if arr (u.relaynumber - 1) = 0 then 1 else 0)) 50).1 := by
  unfold setStateArr
  by_cases h : u.relaynumber = 2
  · rw [if_pos h, if_pos h]
    dsimp only
    split <;> rfl
  · rw [if_neg h, if_neg h]
    dsimp only
    split <;> split <;> rfl

theorem condSum_succ (cond : Int) (arr : Int → Int) (n : Nat) :
    condSum cond arr (n + 1) =
      condSum cond arr n + (if arr (n : Int) = cond then 2 ^ n else 0) :=
  Finset.sum_range_succ _ n

theorem foldArr_eq (cond : Int) (arr : Int → Int) :
    ∀ (n : Nat) (com : Nat), n ≤ 8 → com < 2 ^ (8 - n) →
      foldArr cond arr n com = com * 2 ^ n + condSum cond arr n := by
  intro n
  induction n with
  | zero =>
    intro com _ _
    simp [foldArr, condSum]
  | succ n ih =>
    intro com hn hcom
    have hpow : (2 : Nat) ^ (8 - n) = 2 * 2 ^ (8 - (n + 1)) := by
      have h1 : 8 - n = (8 - (n + 1)) + 1 := by omega
      rw [h1, pow_succ]
      ring
    have h256 : (2 : Nat) ^ (8 - n) ≤ 256 := by
      calc (2 : Nat) ^ (8 - n) ≤ 2 ^ 8 :=
            Nat.pow_le_pow_right (by norm_num) (by omega)
        _ = 256 := by norm_num
    have hmod : com * 2 % 256 = com * 2 := Nat.mod_eq_of_lt (by omega)
    have hstep :
        (if arr (n : Int) = cond then com * 2 % 256 + 1 else com * 2 % 256) <
          2 ^ (8 - n) := by
      split <;> omega
    rw [foldArr, ih _ (by omega) hstep, condSum_succ]
    split <;> rw [hmod, pow_succ] <;> ring

theorem condSum_le (cond : Int) (arr : Int → Int) (n : Nat) :
    condSum cond arr n ≤ 2 ^ n - 1 := by
  induction n with
  | zero => simp [condSum]
  | succ n ih =>
    rw [condSum_succ]
    have h1 : (1 : Nat) ≤ 2 ^ n := Nat.one_le_two_pow
    have h2 : (if arr (n : Int) = cond then 2 ^ n else 0) ≤ 2 ^ n := by
      split <;> omega
    have h3 : (2 : Nat) ^ (n + 1) = 2 * 2 ^ n := by rw [pow_succ]; ring
    omega

theorem condSum_add (arr : Int → Int) (n : Nat)
    (hb : ∀ k : Int, 0 ≤ k → k < (n : Int) → arr k = 0 ∨ arr k = 1) :
    condSum 0 arr n + condSum 1 arr n = 2 ^ n - 1 := by
  induction n with
  | zero => simp [condSum]
  | succ n ih =>
    have ih' := ih (fun k hk0 hkn => hb k hk0 (by push_cast at hkn ⊢; omega))
    rw [condSum_succ, condSum_succ]
    have h1 : (1 : Nat) ≤ 2 ^ n := Nat.one_le_two_pow
    have h3 : (2 : Nat) ^ (n + 1) = 2 * 2 ^ n := by rw [pow_succ]; ring
    rcases hb (n : Int) (by positivity) (by push_cast; omega) with h | h
    · rw [if_pos h, if_neg (by rw [h]; norm_num)]
      omega
    · rw [if_neg (by rw [h]; norm_num), if_pos h]
      omega

/-- C1 counterexample: with relay count 4, the all-off per-relay array
(all entries 0) and its equivalent bitmask 0 do not produce the same
wire byte: the array overload of `setState` sends `0x0F` while the
bitmask overload sends `0xFF`. -/
theorem setState_overload_counterexample :
    bitmaskOf (fun _ => 0) 4 = 0 ∧
    (setStateArr 16 oracleAD relay4 (fun _ => 0)).1.buffertx.headD 0 = 0x0f ∧
    (setStateMask 16 oracleAD relay4 0).1.buffertx.headD 0 = 0xff ∧
    (setStateArr 16 oracleAD relay4 (fun _ => 0)).1.buffertx.headD 0 ≠
      (setStateMask 16 oracleAD relay4 0).1.buffertx.headD 0 := by
  refine ⟨?_, ?_, ?_, ?_⟩ <;> decide

/-- C1 amended: for boolean per-relay arrays, the array overload and
the bitmask overload applied to the equivalent bitmask write
bit-identical wire bytes when the relay count is 2 or 8; when the relay
count is 4 they agree only on the low 4 bits: the bitmask overload's
wire byte is exactly the array overload's wire byte plus `0xF0` (the
array overload leaves the high nibble clear, the bitmask overload sets
it). -/
theorem send_buffertx_headD (cap : Nat) (o : Oracle) (u : Usbrelay)
    (data ms : Nat) :
    (send cap o u data ms).1.buffertx.headD 0 = data % 256 := rfl

theorem setState_overload_agreement (cap : Nat) (o : Oracle) (u : Usbrelay)
    (arr : Int → Int)
    (hbits : ∀ k : Int, 0 ≤ k → k < u.relaynumber → arr k = 0 ∨ arr k = 1) :
    (u.relaynumber = 2 →
      (setStateArr cap o u arr).1.buffertx.headD 0 =
        (setStateMask cap o u (bitmaskOf arr 2 : Nat)).1.buffertx.headD 0) ∧
    (u.relaynumber = 8 →
      (setStateArr cap o u arr).1.buffertx.headD 0 =
        (setStateMask cap o u (bitmaskOf arr 8 : Nat)).1.buffertx.headD 0) ∧
    (u.relaynumber = 4 →
      (setStateMask cap o u (bitmaskOf arr 4 : Nat)).1.buffertx.headD 0 =
        (setStateArr cap o u arr).1.buffertx.headD 0 + 0xf0) := by
  refine ⟨?_, ?_, ?_⟩
  · intro hrel
    have hb1 : arr 1 = 0 ∨ arr 1 = 1 := hbits 1 (by norm_num) (by omega)
    have hm : bitmaskOf arr 2 ≤ 3 := by
      have h := condSum_le 1 arr 2
      norm_num at h
      rw [bitmaskOf]
      exact h
    have hcom0 : (arr 1 % 256).toNat = (if arr 1 = 1 then 1 else 0) := by
      rcases hb1 with h | h <;> simp [h]
    have hsucc2 : bitmaskOf arr 2 =
        condSum 1 arr 1 + (if arr (1 : Int) = 1 then 2 ^ 1 else 0) :=
      condSum_succ 1 arr 1
    have harr : foldArr 1 arr 1 (arr 1 % 256).toNat = bitmaskOf arr 2 := by
      rw [hcom0, foldArr_eq 1 arr 1 _ (by norm_num) (by split <;> norm_num),
        hsucc2]
      rcases hb1 with h | h <;> simp [h] <;> omega
    have hmask : (((bitmaskOf arr 2 : Nat) : Int) % 4).toNat =
        bitmaskOf arr 2 := by omega
    rw [setStateArr_fst, setStateMask_fst, send_buffertx_headD,
      send_buffertx_headD, if_pos hrel, if_pos hrel, hmask, hrel,
      show ((2 : Int) - 1) = 1 by norm_num,
      show ((1 : Int)).toNat = 1 from rfl, harr]
  · intro hrel
    have hpow8 : (2 : Nat) ^ 8 = 256 := by norm_num
    have hbm : bitmaskOf arr 8 = condSum 1 arr 8 := rfl
    have hm : condSum 0 arr 8 + condSum 1 arr 8 = 255 := by
      have h := condSum_add arr 8 (fun k hk0 hkn => hbits k hk0 (by omega))
      rw [hpow8] at h
      omega
    have hle : condSum 1 arr 8 ≤ 255 := by
      have h := condSum_le 1 arr 8
      rw [hpow8] at h
      omega
    have hb7 : arr 7 = 0 ∨ arr 7 = 1 := hbits 7 (by norm_num) (by omega)
    have hsucc8 : condSum 0 arr 8 =
        condSum 0 arr 7 + (if arr (7 : Int) = 0 then 2 ^ 7 else 0) :=
      condSum_succ 0 arr 7
    have harr : foldArr 0 arr 7 (if arr 7 = 0 then 1 else 0) =
        condSum 0 arr 8 := by
      rw [foldArr_eq 0 arr 7 _ (by norm_num) (by split <;> norm_num), hsucc8]
      rcases hb7 with h | h <;> simp [h] <;> omega
    have hmask : ((-((bitmaskOf arr 8 : Nat) : Int) - 1) % 256).toNat =
        255 - bitmaskOf arr 8 := by
      rw [hbm] at *
      omega
    have hne : ¬ u.relaynumber = 2 := by rw [hrel]; norm_num
    rw [setStateArr_fst, setStateMask_fst, send_buffertx_headD,
      send_buffertx_headD, if_neg hne, if_neg hne, hmask, hrel,
      show ((8 : Int) - 1) = 7 by norm_num,
      show ((7 : Int)).toNat = 7 from rfl, harr]
    show condSum 0 arr 8 % 256 = (255 - bitmaskOf arr 8) % 256
    omega
  · intro hrel
    have hpow4 : (2 : Nat) ^ 4 = 16 := by norm_num
    have hbm : bitmaskOf arr 4 = condSum 1 arr 4 := rfl
    have hm : condSum 0 arr 4 + condSum 1 arr 4 = 15 := by
      have h := condSum_add arr 4 (fun k hk0 hkn => hbits k hk0 (by omega))
      rw [hpow4] at h
      omega
    have hle : condSum 1 arr 4 ≤ 15 := by
      have h := condSum_le 1 arr 4
      norm_num at h
      omega
    have hb3 : arr 3 = 0 ∨ arr 3 = 1 := hbits 3 (by norm_num) (by omega)
    have hsucc4 : condSum 0 arr 4 =
        condSum 0 arr 3 + (if arr (3 : Int) = 0 then 2 ^ 3 else 0) :=
      condSum_succ 0 arr 3
    have harr : foldArr 0 arr 3 (if arr 3 = 0 then 1 else 0) =
        condSum 0 arr 4 := by
      rw [foldArr_eq 0 arr 3 _ (by norm_num) (by split <;> norm_num), hsucc4]
      rcases hb3 with h | h <;> simp [h] <;> omega
    have hmask : ((-((bitmaskOf arr 4 : Nat) : Int) - 1) % 256).toNat =
        255 - bitmaskOf arr 4 := by
      rw [hbm] at *
      omega
    have hne : ¬ u.relaynumber = 2 := by rw [hrel]; norm_num
    rw [setStateMask_fst, setStateArr_fst, send_buffertx_headD,
      send_buffertx_headD, if_neg hne, if_neg hne, hmask, hrel,
      show ((4 : Int) - 1) = 3 by norm_num,
      show ((3 : Int)).toNat = 3 from rfl, harr]
    show (255 - bitmaskOf arr 4) % 256 = condSum 0 arr 4 % 256 + 240
    omega

theorem setState_overload_agreement_witness :
    (setStateArr 16 oracleAD relay8
        (fun k => if k = 0 then 1 else 0)).1.buffertx.headD 0 =
      (setStateMask 16 oracleAD relay8
        (bitmaskOf (fun k => if k = 0 then 1 else 0) 8 : Nat)).1.buffertx.headD 0 :=
  (setState_overload_agreement 16 oracleAD relay8
      (fun k => if k = 0 then 1 else 0)
      (fun k _ _ => by
        by_cases h : k = 0
        · exact Or.inr (by simp [h])
        · exact Or.inl (by simp [h]))).2.1 rfl

end UsbRelay
